import Mathlib

/-!
Shallow embedding of the tic-tac-toe-twist game engine
(packages/engine/src: board.ts, types.ts, variants.ts, ai/heuristics.ts,
ai/minimax.ts) and proofs about the specification claims.

Conventions of the embedding:
* JS numbers used as coordinates are modelled as Int; indices proven
  in bounds are converted with Int.toNat at the indexing site.
* Reading board[r][c] out of range yields undefined in JS; undefined
  compares unequal to null, to the player symbols and to the obstacle
  symbols in every comparison the engine performs, exactly as the
  blocked cell value does, so out-of-range reads default to Cell.B.
* A thrown Error("Illegal move") is modelled as Except.error.
* Math.random driven choices are modelled as explicit oracle
  parameters (a count pick and a stream of coordinate picks); a run of
  the JS retry loop that terminates corresponds to a some result.
* Date.now() deadline checks in the search are modelled as a stream of
  Booleans, one per performed check.
-/

namespace TTT

/-- Player is the TS union of the X and O symbols. -/
inductive Player where
  | X
  | O
deriving DecidableEq, Repr

/-- Cell is Player, null (empty), B (blocked) or F (bombed). -/
inductive Cell where
  | empty
  | mark (p : Player)
  | B
  | F
deriving DecidableEq, Repr

/-- Result values of checkWinner other than null: a player or a draw. -/
inductive GameResult where
  | player (p : Player)
  | draw
deriving DecidableEq, Repr

/-- The three one-time powers of the TS OneTimePowerId union. -/
inductive OneTimePowerId where
  | doubleMove
  | laneShift
  | bomb
deriving DecidableEq, Repr

/-- Axis of a lane shift: row or column. -/
inductive Axis where
  | row
  | column
deriving DecidableEq, Repr

/-- LaneShift record: axis, index and cyclic direction. -/
structure LaneShift where
  axis : Axis
  index : Int
  direction : Int
deriving DecidableEq, Repr

/-- MovePlacement: a pair of coordinates. -/
structure MovePlacement where
  r : Int
  c : Int
deriving DecidableEq, Repr

/-- Move record; every field is optional in the TS interface. -/
structure Move where
  r : Option Int := none
  c : Option Int := none
  player : Option Player := none
  power : Option OneTimePowerId := none
  extra : Option MovePlacement := none
  shift : Option LaneShift := none
deriving DecidableEq, Repr

/-- VariantConfig; randomBlocks is read through a nullish-coalescing
with 0 in the engine, so an absent value is modelled as 0. -/
structure VariantConfig where
  boardSize : Nat
  winLength : Nat
  misere : Bool := false
  gravity : Bool := false
  wrap : Bool := false
  randomBlocks : Nat := 0
  doubleMove : Bool := false
  laneShift : Bool := false
  allowRowColShift : Bool := false
  bomb : Bool := false
deriving DecidableEq, Repr

/-- A per-player pair of Booleans (TS Record of Player to boolean). -/
structure PlayerFlags where
  X : Bool
  O : Bool
deriving DecidableEq, Repr

/-- Read the flag of one player. -/
def PlayerFlags.get (f : PlayerFlags) : Player → Bool
  | .X => f.X
  | .O => f.O

/-- Set the flag of one player to true, copying the rest. -/
def PlayerFlags.setTrue (f : PlayerFlags) : Player → PlayerFlags
  | .X => { f with X := true }
  | .O => { f with O := true }

/-- PowerUsage as actually constructed and accessed by the engine:
createInitialPowerUsage builds exactly the doubleMove and laneShift
entries and no engine code path ever reads or writes a bomb entry
(the declared TS type also lists bomb, which the implementation never
creates). -/
structure PowerUsage where
  doubleMove : PlayerFlags
  laneShift : PlayerFlags
deriving DecidableEq, Repr

/-- The board: an array of rows of cells. -/
abbrev Board := List (List Cell)

/-- GameState aggregate. -/
structure GameState where
  board : Board
  current : Player
  config : VariantConfig
  moves : List Move
  winner : Option GameResult
  lastMove : Option Move := none
  powers : PowerUsage
deriving DecidableEq, Repr

/-- Raw board read board[r][c]; out of range yields Cell.B (see the
header note about undefined). -/
def getCell (b : Board) (r c : Nat) : Cell :=
  (List.getD b r []).getD c Cell.B

/-- createBoard: an n by n board of empty cells. -/
def createBoard (n : Nat) : Board :=
  List.replicate n (List.replicate n Cell.empty)

/-- Write one cell of the board (the place helper together with the
array mutation sites; List.set ignores an out-of-range index). -/
def setCell (b : Board) (r c : Nat) (v : Cell) : Board :=
  List.set b r ((List.getD b r []).set c v)

/-- place: copy the board with the player symbol written at (r, c). -/
def place (b : Board) (r c : Nat) (p : Player) : Board :=
  setCell b r c (Cell.mark p)

/-- inBounds from board.ts. -/
def inBounds (n : Nat) (r c : Int) : Bool :=
  decide (0 ≤ r) && decide (0 ≤ c) && decide (r < (n : Int)) && decide (c < (n : Int))

/-- The while loop of applyGravity: slide the row index down while the
cell below is empty. -/
def gravityDrop (b : Board) (n : Nat) (c : Nat) (rr : Nat) : Nat :=
  if h : rr + 1 < n ∧ getCell b (rr + 1) c = Cell.empty then
    gravityDrop b n c (rr + 1)
  else
    rr
termination_by n - rr
decreasing_by
  omega

/-- applyGravity: the final row of a piece dropped at (r, c). -/
def applyGravity (b : Board) (r c : Nat) : Nat × Nat :=
  (gravityDrop b b.length c r, c)

/-- emptyCells: plain placement moves for every empty cell, row major;
the inner loop bound is the row count n, as in the source. -/
def emptyCells (b : Board) : List Move :=
  (List.range b.length).flatMap fun r =>
    (List.range b.length).flatMap fun c =>
      if getCell b r c = Cell.empty then
        [{ r := some (r : Int), c := some (c : Int) }]
      else
        []

/-- areAdjacent: Chebyshev distance at most one. -/
def areAdjacent (a b : MovePlacement) : Bool :=
  decide (max (a.r - b.r).natAbs (a.c - b.c).natAbs ≤ 1)

/-- adjacentToAny from board.ts. -/
def adjacentToAny (target : MovePlacement) (marks : List MovePlacement) : Bool :=
  marks.any fun mark => areAdjacent target mark

/-- collectPlayerMarks: coordinates of the cells of one player, row
major; the inner loop bound is the length of each row, as in the
source. -/
def collectPlayerMarks (b : Board) (player : Player) : List MovePlacement :=
  (List.range b.length).flatMap fun r =>
    (List.range (List.getD b r []).length).flatMap fun c =>
      if getCell b r c = Cell.mark player then
        [{ r := (r : Int), c := (c : Int) }]
      else
        []

/-- createInitialPowerUsage: both tracked powers unused for both
players. -/
def createInitialPowerUsage : PowerUsage :=
  { doubleMove := { X := false, O := false }
    laneShift := { X := false, O := false } }

/-- markPowerUsed; the engine only ever invokes it with doubleMove or
laneShift (there is no bomb branch anywhere in applyMove), so the bomb
case leaves the record unchanged. -/
def markPowerUsed (powers : PowerUsage) (power : OneTimePowerId) (player : Player) : PowerUsage :=
  match power with
  | .doubleMove => { powers with doubleMove := powers.doubleMove.setTrue player }
  | .laneShift => { powers with laneShift := powers.laneShift.setTrue player }
  | .bomb => powers

/-- nextPlayer from board.ts. -/
def nextPlayer : Player → Player
  | .X => .O
  | .O => .X

/-- legalMoves: placements on empty cells only (powers are offered
through separate UI flows, as the source comment notes). -/
def legalMoves (state : GameState) : List Move :=
  emptyCells state.board

/-- simulatePlacement: bounds and occupancy checks, gravity
resolution, then the actual placement. -/
def simulatePlacement (board : Board) (target : MovePlacement) (config : VariantConfig)
    (player : Player) : Option (Board × MovePlacement) :=
  let n := board.length
  if inBounds n target.r target.c = false then
    none
  else if getCell board target.r.toNat target.c.toNat ≠ Cell.empty then
    none
  else
    let final : Nat × Nat :=
      if config.gravity then applyGravity board target.r.toNat target.c.toNat
      else (target.r.toNat, target.c.toNat)
    if inBounds n (final.1 : Int) (final.2 : Int) = false then
      none
    else if getCell board final.1 final.2 ≠ Cell.empty then
      none
    else
      some (place board final.1 final.2 player, { r := (final.1 : Int), c := (final.2 : Int) })

/-- Membership of a coordinate pair in the stringified key set built
from legalMoves (number toString is injective, so string key equality
is coordinate equality). -/
def isBaseLegal (state : GameState) (r c : Int) : Bool :=
  (legalMoves state).any fun m => m.r == some r && m.c == some c

/-- The body of the per-ordering loop of resolveDoubleMove: simulate
each target in turn, rejecting a placement whose final cell is
adjacent to the accumulated marks, and collect boards and finals. -/
def runDoubleOrder (config : VariantConfig) (player : Player) :
    List MovePlacement → Board → List MovePlacement → List MovePlacement →
    Option (Board × List MovePlacement)
  | [], board, finals, _ => some (board, finals)
  | target :: rest, board, finals, marksCheck =>
    match simulatePlacement board target config player with
    | none => none
    | some (board2, final) =>
      if adjacentToAny final marksCheck then
        none
      else
        runDoubleOrder config player rest board2 (finals ++ [final]) (marksCheck ++ [final])

/-- Try each ordering of the two placements in turn, as the final for
loop of resolveDoubleMove does. -/
def tryDoubleOrders (config : VariantConfig) (player : Player) (board0 : Board)
    (ownMarks : List MovePlacement) :
    List (List MovePlacement) → Option (Board × MovePlacement × MovePlacement)
  | [] => none
  | order :: rest =>
    match runDoubleOrder config player order board0 [] ownMarks with
    | some (board, [f1, f2]) =>
      if areAdjacent f1 f2 then
        tryDoubleOrders config player board0 ownMarks rest
      else
        some (board, f1, f2)
    | _ => tryDoubleOrders config player board0 ownMarks rest

/-- resolveDoubleMove from board.ts. -/
def resolveDoubleMove (state : GameState) (move : Move) :
    Option (Board × MovePlacement × MovePlacement) :=
  if move.power ≠ some OneTimePowerId.doubleMove then
    none
  else if state.config.doubleMove = false then
    none
  else if state.powers.doubleMove.get state.current then
    none
  else
    match move.extra, move.r, move.c with
    | none, _, _ => none
    | some _, none, _ => none
    | some _, some _, none => none
    | some secondary, some r, some c =>
      if isBaseLegal state r c = false ∨ isBaseLegal state secondary.r secondary.c = false then
        none
      else if r = secondary.r ∧ c = secondary.c then
        none
      else
        let attempts : List (List MovePlacement) :=
          [[{ r := r, c := c }, { r := secondary.r, c := secondary.c }]] ++
            (if r ≠ secondary.r ∨ c ≠ secondary.c then
              [[{ r := secondary.r, c := secondary.c }, { r := r, c := c }]]
            else
              [])
        let ownMarks := collectPlayerMarks state.board state.current
        tryDoubleOrders state.config state.current state.board ownMarks attempts

/-- canUseDoubleMove from board.ts. -/
def canUseDoubleMove (state : GameState) : Bool :=
  if state.config.doubleMove = false then
    false
  else
    !(state.powers.doubleMove.get state.current)

/-- isDoubleMoveLegal from board.ts. -/
def isDoubleMoveLegal (state : GameState) (move : Move) : Bool :=
  (resolveDoubleMove state move).isSome

/-- shiftRowInPlace: the row is cyclically shifted by the direction;
the modulus is the length of that row, as in the source. -/
def shiftRow (board : Board) (rowIndex : Nat) (direction : Int) : Board :=
  let row := List.getD board rowIndex []
  let n := row.length
  let next := (List.range n).map fun c =>
    row.getD (((c : Int) - direction + n).toNat % n) Cell.B
  board.set rowIndex next

/-- shiftColumnInPlace: the column is cyclically shifted by the
direction; the modulus is the number of rows. -/
def shiftColumn (board : Board) (columnIndex : Nat) (direction : Int) : Board :=
  let n := board.length
  let next := (List.range n).map fun r =>
    getCell board (((r : Int) - direction + n).toNat % n) columnIndex
  (List.range n).foldl (fun b r => setCell b r columnIndex (next.getD r Cell.B)) board

/-- resolveLaneShift from board.ts. -/
def resolveLaneShift (state : GameState) (move : Move) : Option Board :=
  if move.power ≠ some OneTimePowerId.laneShift then
    none
  else if state.config.laneShift = false then
    none
  else if state.powers.laneShift.get state.current then
    none
  else
    match move.shift with
    | none => none
    | some shift =>
      if shift.direction ≠ 1 ∧ shift.direction ≠ -1 then
        none
      else
        let n := state.board.length
        if shift.index < 0 ∨ (n : Int) ≤ shift.index then
          none
        else
          match shift.axis with
          | .row => some (shiftRow state.board shift.index.toNat shift.direction)
          | .column => some (shiftColumn state.board shift.index.toNat shift.direction)

/-- canUseLaneShift from board.ts. -/
def canUseLaneShift (state : GameState) : Bool :=
  if state.config.laneShift = false then
    false
  else
    !(state.powers.laneShift.get state.current)

/-- isLaneShiftLegal from board.ts. -/
def isLaneShiftLegal (state : GameState) (move : Move) : Bool :=
  (resolveLaneShift state move).isSome

/-- The block placement while loop of initState: draw coordinates from
the oracle stream until the requested number of blocks is placed; none
models a run in which the finite modelled stream is exhausted (the JS
loop would keep drawing, so every terminating run is a some). Each
drawn pair is reduced modulo the board size, mirroring the range of
Math.floor of Math.random times boardSize. -/
def placeBlocksLoop (n : Nat) (blocks : Nat) :
    Nat → List (Nat × Nat) → Board → Option Board
  | placed, coords, b =>
    if placed < blocks then
      match coords with
      | [] => none
      | (r0, c0) :: rest =>
        let r := r0 % n
        let c := c0 % n
        if getCell b r c = Cell.empty then
          placeBlocksLoop n blocks (placed + 1) rest (setCell b r c Cell.B)
        else
          placeBlocksLoop n blocks placed rest b
    else
      some b

/-- initState from board.ts, with the two random draws surfaced as
oracle parameters: pick models Math.floor of Math.random times
maxBlocks (reduced modulo maxBlocks, covering exactly the same range),
coords models the stream of drawn block coordinates. -/
def initState (config : VariantConfig) (pick : Nat) (coords : List (Nat × Nat)) :
    Option GameState :=
  let board := createBoard config.boardSize
  let maxBlocks := min config.randomBlocks (config.boardSize ^ 2 / 4)
  let blocks := if 1 < maxBlocks then pick % maxBlocks + 1 else maxBlocks
  match placeBlocksLoop config.boardSize blocks 0 coords board with
  | none => none
  | some b =>
    some
      { board := b
        current := .X
        config := config
        moves := []
        winner := none
        powers := createInitialPowerUsage }

/-- applyMove from board.ts. A move whose power is bomb falls through
to the plain placement branch, exactly as in the source, which has no
bomb case. -/
def applyMove (state : GameState) (move : Move) : Except String GameState :=
  match move.power with
  | some OneTimePowerId.doubleMove =>
    match resolveDoubleMove state move with
    | none => .error "Illegal move"
    | some (board, first, second) =>
      let player := state.current
      let storedMove : Move :=
        { r := some second.r
          c := some second.c
          extra := some { r := first.r, c := first.c }
          player := some player
          power := some OneTimePowerId.doubleMove }
      .ok
        { state with
            board := board
            moves := state.moves ++ [storedMove]
            current := nextPlayer player
            lastMove := some storedMove
            powers := markPowerUsed state.powers OneTimePowerId.doubleMove player }
  | some OneTimePowerId.laneShift =>
    match resolveLaneShift state move, move.shift with
    | some board, some shift =>
      let player := state.current
      let storedMove : Move :=
        { power := some OneTimePowerId.laneShift
          shift := some shift
          player := some player }
      .ok
        { state with
            board := board
            moves := state.moves ++ [storedMove]
            current := nextPlayer player
            lastMove := some storedMove
            powers := markPowerUsed state.powers OneTimePowerId.laneShift player }
    | _, _ => .error "Illegal move"
  | _ =>
    match move.r, move.c with
    | some r, some c =>
      let n := state.board.length
      if inBounds n r c = false then
        .error "Illegal move"
      else if getCell state.board r.toNat c.toNat ≠ Cell.empty then
        .error "Illegal move"
      else
        let final : Nat × Nat :=
          if state.config.gravity then applyGravity state.board r.toNat c.toNat
          else (r.toNat, c.toNat)
        if getCell state.board final.1 final.2 ≠ Cell.empty then
          .error "Illegal move"
        else
          let nb := place state.board final.1 final.2 state.current
          let player := state.current
          let storedMove : Move :=
            { r := some (final.1 : Int), c := some (final.2 : Int), player := some player }
          .ok
            { state with
                board := nb
                moves := state.moves ++ [storedMove]
                current := nextPlayer player
                lastMove := some storedMove }
    | _, _ => .error "Illegal move"

/-- The cell helper of checkWinner: wrap folds the coordinates modulo
the board size (JS remainder; the reachable offsets keep the dividend
nonnegative), otherwise out-of-bounds reads count as blocked. -/
def winnerCell (state : GameState) (r c : Int) : Cell :=
  let n := state.board.length
  if state.config.wrap then
    getCell state.board ((r + n).tmod n).toNat ((c + n).tmod n).toNat
  else if inBounds n r c then
    getCell state.board r.toNat c.toNat
  else
    Cell.B

/-- The inner counting loop of checkWinner over one window: count the
X and O cells, zeroing both and stopping at any other cell. -/
def runCountsGo (state : GameState) (sr sc dr dc : Int) :
    List Nat → Nat × Nat → Nat × Nat
  | [], acc => acc
  | k :: ks, (x, o) =>
    match winnerCell state (sr + dr * k) (sc + dc * k) with
    | Cell.mark .X => runCountsGo state sr sc dr dc ks (x + 1, o)
    | Cell.mark .O => runCountsGo state sr sc dr dc ks (x, o + 1)
    | _ => (0, 0)

/-- X and O counts of the window of winLength cells starting at
(sr, sc) in direction (dr, dc). -/
def runCounts (state : GameState) (sr sc dr dc : Int) : Nat × Nat :=
  runCountsGo state sr sc dr dc (List.range state.config.winLength) (0, 0)

/-- The four scan directions of checkWinner. -/
def dirs : List (Int × Int) :=
  [(0, 1), (1, 0), (1, 1), (1, -1)]

/-- All line start coordinates, row major. -/
def lineStarts (n : Nat) : List (Nat × Nat) :=
  (List.range n).flatMap fun r => (List.range n).map fun c => (r, c)

/-- The winner reported by one window, with the misere inversion
applied at the point of detection, as in the source. -/
def windowWinner (state : GameState) (sr sc : Nat) (dr dc : Int) : Option Player :=
  let need := state.config.winLength
  let (x, o) := runCounts state sr sc dr dc
  if x = need then
    some (if state.config.misere then .O else .X)
  else if o = need then
    some (if state.config.misere then .X else .O)
  else
    none

/-- checkWinner from board.ts: first winning window in scan order,
else draw when no empty cell remains, else null. -/
def checkWinner (state : GameState) : Option GameResult :=
  match
    (lineStarts state.board.length).findSome? fun rc =>
      dirs.findSome? fun d => windowWinner state rc.1 rc.2 d.1 d.2
  with
  | some p => some (GameResult.player p)
  | none =>
    if (emptyCells state.board).length = 0 then
      some GameResult.draw
    else
      none

/-! ai/heuristics.ts -/

/-- The opponent of a player (the local ternary of evaluate). -/
def opponent : Player → Player
  | .X => .O
  | .O => .X

/-- The cell helper of evaluate; identical in behaviour to the one of
checkWinner. -/
def evalCell (state : GameState) (r c : Int) : Cell :=
  let n := state.board.length
  if state.config.wrap then
    getCell state.board ((r + n).tmod n).toNat ((c + n).tmod n).toNat
  else if inBounds n r c then
    getCell state.board r.toNat c.toNat
  else
    Cell.B

/-- The misere sign factor of evaluate. -/
def misereFactor (state : GameState) : Int :=
  if state.config.misere then -1 else 1

/-- The center scale constant of evaluate. -/
def centerScale (n : Nat) : Int :=
  if n ≤ 3 then 6 else 8

/-- Contribution of one cell to the center control term. The source
computes the Manhattan distance to the board center (n - 1) / 2 in JS
floating point and doubles it; twice that distance is the integer
written below, so the whole term stays in Int. -/
def centerTermCell (n : Nat) (forPlayer : Player) (val : Cell) (r c : Nat) : Int :=
  if val = Cell.mark forPlayer ∨ val = Cell.mark (opponent forPlayer) then
    let dist2 : Int := ((2 * r : Int) - ((n : Int) - 1)).natAbs + ((2 * c : Int) - ((n : Int) - 1)).natAbs
    let weight := max 0 (centerScale n - dist2)
    if val = Cell.mark forPlayer then weight else -weight
  else
    0

/-- The full center control term of evaluate (raw board reads, as in
the source). -/
def centerTerm (state : GameState) (forPlayer : Player) : Int :=
  ((List.range state.board.length).map fun r =>
    ((List.range state.board.length).map fun c =>
      centerTermCell state.board.length forPlayer (getCell state.board r c) r c).sum).sum

/-- Counters of one evaluation window. -/
structure WindowCount where
  mine : Nat
  theirs : Nat
  empties : Nat
  blocked : Bool
deriving DecidableEq, Repr

/-- The counting loop of windowValue: count own cells, opposing cells
and empties, stopping with the blocked flag at any obstacle. -/
def windowCountGo (state : GameState) (forPlayer : Player) (sr sc dr dc : Int) :
    List Nat → Nat × Nat × Nat → WindowCount
  | [], (m, t, e) => { mine := m, theirs := t, empties := e, blocked := false }
  | k :: ks, (m, t, e) =>
    let v := evalCell state (sr + dr * k) (sc + dc * k)
    if v = Cell.mark forPlayer then
      windowCountGo state forPlayer sr sc dr dc ks (m + 1, t, e)
    else if v = Cell.mark (opponent forPlayer) then
      windowCountGo state forPlayer sr sc dr dc ks (m, t + 1, e)
    else if v = Cell.empty then
      windowCountGo state forPlayer sr sc dr dc ks (m, t, e + 1)
    else
      { mine := m, theirs := t, empties := e, blocked := true }

/-- Counters of the window of winLength cells starting at (sr, sc) in
direction (dr, dc). -/
def windowCount (state : GameState) (forPlayer : Player) (sr sc dr dc : Int) : WindowCount :=
  windowCountGo state forPlayer sr sc dr dc (List.range state.config.winLength) (0, 0, 0)

/-- windowValue from heuristics.ts. -/
def windowValue (state : GameState) (forPlayer : Player) (sr sc dr dc : Int) : Int :=
  let need := state.config.winLength
  let w := windowCount state forPlayer sr sc dr dc
  if w.blocked then
    0
  else if 0 < w.mine ∧ 0 < w.theirs then
    0
  else
    let before := evalCell state (sr - dr) (sc - dc)
    let after := evalCell state (sr + dr * need) (sc + dc * need)
    let openEnds : Int :=
      (if before = Cell.empty then 1 else 0) + (if after = Cell.empty then 1 else 0)
    if w.mine = need then
      10000 * misereFactor state
    else if w.theirs = need then
      -10000 * misereFactor state
    else if 0 < w.mine then
      ((4 : Int) ^ w.mine + (if w.empties = 1 then 900 else 0) + openEnds * 60) * misereFactor state
    else if 0 < w.theirs then
      -(((4 : Int) ^ w.theirs + (if w.empties = 1 then 900 else 0) + openEnds * 60) * misereFactor state)
    else
      0

/-- evaluate from heuristics.ts: center control plus the sum of all
window values over every start cell and direction. -/
def evaluate (state : GameState) (forPlayer : Player) : Int :=
  centerTerm state forPlayer +
    ((lineStarts state.board.length).map fun rc =>
      (dirs.map fun d => windowValue state forPlayer rc.1 rc.2 d.1 d.2).sum).sum

/-! ai/minimax.ts -/

/-- JS number values reachable in the search scores: minus infinity,
a finite integer, plus infinity. -/
inductive JNum where
  | ninf
  | num (v : Int)
  | pinf
deriving DecidableEq, Repr

/-- Less-or-equal on search scores. -/
def JNum.le : JNum → JNum → Bool
  | .ninf, _ => true
  | _, .pinf => true
  | .num a, .num b => decide (a ≤ b)
  | .pinf, _ => false
  | .num _, .ninf => false

/-- Strict order on search scores. -/
def JNum.lt (a b : JNum) : Bool :=
  !(JNum.le b a)

/-- Negation of a search score. -/
def JNum.neg : JNum → JNum
  | .ninf => .pinf
  | .pinf => .ninf
  | .num v => .num (-v)

/-- Transposition table entry flags. -/
inductive TTFlag where
  | isExact
  | lower
  | upper
deriving DecidableEq, Repr

/-- Transposition table entry. -/
structure TTEntry where
  depth : Nat
  value : JNum
  flag : TTFlag
deriving DecidableEq, Repr

/-- The transposition Map, modelled as an association list in which
set prepends and get takes the first match. -/
def TT := List (String × TTEntry)

/-- Map.get. -/
def ttGet (tt : TT) (key : String) : Option TTEntry :=
  (List.find? (fun e => e.1 == key) tt).map fun e => e.2

/-- Map.set (a later entry shadows an earlier one under ttGet). -/
def ttSet (tt : TT) (key : String) (entry : TTEntry) : TT :=
  (key, entry) :: tt

/-- One character per cell of the hash string. -/
def cellChar : Cell → String
  | .empty => "."
  | .B => "B"
  | .F => "F"
  | .mark .X => "X"
  | .mark .O => "O"

/-- hashState from minimax.ts: board contents row by row, then the
player to move and the variant flags. -/
def hashState (state : GameState) : String :=
  let boardKey := state.board.foldl
    (fun acc row => (row.foldl (fun a v => a ++ cellChar v) acc) ++ "/") ""
  boardKey ++ "|" ++ (match state.current with | .X => "X" | .O => "O") ++
    "|" ++ toString state.config.winLength ++
    (if state.config.wrap then "w" else "-") ++
    (if state.config.gravity then "g" else "-") ++
    (if state.config.misere then "m" else "-") ++
    (if state.config.doubleMove then "d" else "-") ++
    (if state.config.laneShift then "l" else "-") ++
    (if state.config.bomb then "b" else "-")

/-- applyMove as used inside the search. Every call site passes a move
taken from legalMoves, on which applyMove cannot fail (see the theorem
for claim C2); a JS exception there would abort bestMove, which is
unreachable, so the error case returns the state unchanged. -/
def applyMoveTotal (state : GameState) (move : Move) : GameState :=
  match applyMove state move with
  | .ok t => t
  | .error _ => state

/-- Score of one candidate move during move ordering. -/
def orderScore (state : GameState) (forPlayer : Player) (move : Move) : JNum :=
  let next := applyMoveTotal state move
  match checkWinner next with
  | some (GameResult.player p) => if p = forPlayer then .pinf else .ninf
  | some GameResult.draw => .num 0
  | none => .num (evaluate next forPlayer)

/-- orderMoves from minimax.ts: stable descending sort by the one-ply
evaluation (the V8 sort is stable; a comparator returning NaN on two
infinite scores leaves such pairs in place, which the stable sort with
a non-strict comparison reproduces). -/
def orderMoves (state : GameState) (moves : List Move) (forPlayer : Player) : List Move :=
  if moves.length ≤ 1 then
    moves
  else
    let scored := moves.map fun move => (move, orderScore state forPlayer move)
    (scored.mergeSort fun a b => JNum.le b.2 a.2).map fun e => e.1

/-- Result record of negamax. -/
structure NegamaxResult where
  score : JNum
  timedOut : Bool
deriving DecidableEq, Repr

/-- The transposition probe of negamax: either an early return value
or the adjusted alpha and beta bounds. -/
def ttProbe (entry : Option TTEntry) (depth : Nat) (alpha beta : JNum) :
    Option JNum × JNum × JNum :=
  match entry with
  | none => (none, alpha, beta)
  | some e =>
    if depth ≤ e.depth then
      match e.flag with
      | .isExact => (some e.value, alpha, beta)
      | .lower =>
        let alpha2 := if JNum.lt alpha e.value then e.value else alpha
        if JNum.le beta alpha2 then (some e.value, alpha2, beta) else (none, alpha2, beta)
      | .upper =>
        let beta2 := if JNum.lt e.value beta then e.value else beta
        if JNum.le beta2 alpha then (some e.value, alpha, beta2) else (none, alpha, beta2)
    else
      (none, alpha, beta)

/-- The move loop of negamax, with the recursive search at the next
depth passed in as a function argument. The loop threads best, alpha,
the transposition table and the clock, stops on a timeout of a child,
and breaks on an alpha-beta cutoff. -/
def negamaxLoop
    (rec : GameState → JNum → JNum → TT → List Bool → NegamaxResult × TT × List Bool)
    (state : GameState) (beta : JNum) :
    List Move → JNum → JNum → TT → List Bool →
    (NegamaxResult ⊕ (JNum × JNum)) × TT × List Bool
  | [], best, alpha, tt, clock => (Sum.inr (best, alpha), tt, clock)
  | move :: rest, best, alpha, tt, clock =>
    let next := applyMoveTotal state move
    let (child, tt2, clock2) := rec next (JNum.neg beta) (JNum.neg alpha) tt clock
    if child.timedOut then
      (Sum.inl child, tt2, clock2)
    else
      let score := JNum.neg child.score
      let best2 := if JNum.lt best score then score else best
      let alpha2 := if JNum.lt alpha score then score else alpha
      if JNum.le beta alpha2 then
        (Sum.inr (best2, alpha2), tt2, clock2)
      else
        negamaxLoop rec state beta rest best2 alpha2 tt2 clock2

/-- negamax from minimax.ts. The deadline flag says whether a deadline
was supplied; each performed Date.now() comparison consumes one value
of the clock stream (exhaustion of the modelled stream reads false,
that is, no timeout). -/
def negamax (forPlayer : Player) (hasDeadline : Bool) :
    Nat → GameState → JNum → JNum → TT → List Bool →
    NegamaxResult × TT × List Bool
  | depth, state, alpha, beta, tt, clock =>
    let timed := hasDeadline && clock.headD false
    let clock1 := if hasDeadline then clock.tail else clock
    if timed then
      ({ score := .num 0, timedOut := true }, tt, clock1)
    else
      match checkWinner state with
      | some GameResult.draw => ({ score := .num 0, timedOut := false }, tt, clock1)
      | some (GameResult.player p) =>
        ({ score := .num (if p = forPlayer then 10000 else -10000), timedOut := false }, tt, clock1)
      | none =>
        if _hz : depth = 0 then
          ({ score := .num (evaluate state forPlayer), timedOut := false }, tt, clock1)
        else
          let key := hashState state
          let (early, alpha1, beta1) := ttProbe (ttGet tt key) depth alpha beta
          match early with
          | some v => ({ score := v, timedOut := false }, tt, clock1)
          | none =>
            let moves := orderMoves state (legalMoves state) forPlayer
            if moves.length = 0 then
              ({ score := .num (evaluate state forPlayer), timedOut := false }, tt, clock1)
            else
              match
                negamaxLoop (negamax forPlayer hasDeadline (depth - 1)) state beta1
                  moves .ninf alpha1 tt clock1
              with
              | (Sum.inl child, tt2, clock2) => (child, tt2, clock2)
              | (Sum.inr (best, _), tt2, clock2) =>
                let flag :=
                  if JNum.le best alpha1 then TTFlag.upper
                  else if JNum.le beta1 best then TTFlag.lower
                  else TTFlag.isExact
                ({ score := best, timedOut := false },
                  ttSet tt2 key { depth := depth, value := best, flag := flag }, clock2)
termination_by depth => depth
decreasing_by
  omega

/-- Result record of searchRoot. -/
structure SearchResult where
  score : JNum
  move : Option Move
  timedOut : Bool
deriving DecidableEq, Repr

/-- The move loop of searchRoot. -/
def searchRootLoop (forPlayer : Player) (hasDeadline : Bool) (state : GameState)
    (childDepth : Nat) (beta : JNum) :
    List Move → JNum → JNum → Option Move → TT → List Bool →
    SearchResult × TT × List Bool
  | [], _, bestScore, best, tt, clock =>
    ({ score := bestScore, move := best, timedOut := false }, tt, clock)
  | move :: rest, alpha, bestScore, best, tt, clock =>
    let next := applyMoveTotal state move
    let (result, tt2, clock2) :=
      negamax forPlayer hasDeadline childDepth next (JNum.neg beta) (JNum.neg alpha) tt clock
    if result.timedOut then
      ({ score := bestScore, move := best, timedOut := true }, tt2, clock2)
    else
      let score := JNum.neg result.score
      let takes := JNum.lt bestScore score || best.isNone
      let bestScore2 := if takes then score else bestScore
      let best2 := if takes then some move else best
      let alpha2 := if JNum.lt alpha score then score else alpha
      searchRootLoop forPlayer hasDeadline state childDepth beta rest alpha2 bestScore2 best2 tt2 clock2

/-- searchRoot from minimax.ts. -/
def searchRoot (state : GameState) (forPlayer : Player) (depth : Nat)
    (orderedMoves : List Move) (tt : TT) (hasDeadline : Bool) (clock : List Bool) :
    SearchResult × TT × List Bool :=
  let key := hashState state
  let (result, tt2, clock2) :=
    searchRootLoop forPlayer hasDeadline state (depth - 1) .pinf orderedMoves
      .ninf .ninf none tt clock
  if result.timedOut then
    (result, tt2, clock2)
  else if result.move.isSome then
    (result, ttSet tt2 key { depth := depth, value := result.score, flag := TTFlag.isExact }, clock2)
  else
    (result, tt2, clock2)

/-- Search options of bestMove. -/
structure SearchOpts where
  depth : Option Nat := none
  maxMillis : Option Nat := none

/-- The iterative deepening loop of bestMove over the remaining
depths; returns the best move so far and whether a timeout stopped the
deepening. -/
def bestMoveLoop (state : GameState) (forPlayer : Player) (hasDeadline : Bool)
    (moves : List Move) :
    List Nat → Option Move → JNum → TT → List Bool → Option Move × Bool
  | [], best, _, _, _ => (best, false)
  | d :: ds, best, bestScore, tt, clock =>
    let (result, tt2, clock2) := searchRoot state forPlayer d moves tt hasDeadline clock
    if result.timedOut then
      (best, true)
    else
      bestMoveLoop state forPlayer hasDeadline moves ds
        (if result.move.isSome then result.move else best)
        (if result.move.isSome then result.score else bestScore)
        tt2 clock2

/-- bestMove from minimax.ts, with the deadline clock surfaced as an
oracle stream (the maxMillis value only decides whether a deadline
exists). -/
def bestMove (state : GameState) (forPlayer : Player) (opts : SearchOpts)
    (clock : List Bool) : Option Move :=
  let targetDepth := opts.depth.getD (if state.board.length = 3 then 10 else 5)
  let hasDeadline := opts.maxMillis.isSome
  let moves := orderMoves state (legalMoves state) forPlayer
  if moves.length = 0 then
    none
  else
    let (best, timedOut) :=
      bestMoveLoop state forPlayer hasDeadline moves (List.range' 1 targetDepth)
        moves.head? .ninf [] clock
    if best.isNone && timedOut then
      moves.head?
    else
      best

/-! Helper constructions used only to state the claims. -/

/-- Replace the winner field. -/
def setWinner (s : GameState) (w : Option GameResult) : GameState :=
  { s with winner := w }

/-- Relabel a player. -/
def swapPlayer : Player → Player
  | .X => .O
  | .O => .X

/-- Relabel a game result: swap the players, keep a draw. -/
def resultSwap : GameResult → GameResult
  | .player p => .player (swapPlayer p)
  | .draw => .draw

/-- Replace the misere flag. -/
def withMisere (s : GameState) (m : Bool) : GameState :=
  { s with config := { s.config with misere := m } }

/-- Relabel one cell. -/
def swapCell : Cell → Cell
  | .mark p => .mark (swapPlayer p)
  | v => v

/-- Relabel every cell of the board. -/
def swapBoard (b : Board) : Board :=
  b.map fun row => row.map swapCell

/-- Total number of cells of the board. -/
def totalCells (b : Board) : Nat :=
  (b.map List.length).sum

/-- Number of blocked cells of the board. -/
def countBlocked (b : Board) : Nat :=
  (b.map fun row => row.count Cell.B).sum

/-! Concrete states used by counterexamples and witnesses. -/

/-- The classic 3 by 3 configuration with no variants. -/
def classicConfig : VariantConfig :=
  { boardSize := 3, winLength := 3 }

/-- An empty classic 3 by 3 state. -/
def emptyClassic : GameState :=
  { board := createBoard 3
    current := .X
    config := classicConfig
    moves := []
    winner := none
    powers := createInitialPowerUsage }

/-- A terminal state: X holds the whole top row and the winner field
records the X win, while empty cells remain. -/
def terminalState : GameState :=
  { emptyClassic with
      board := [[Cell.mark .X, Cell.mark .X, Cell.mark .X],
                [Cell.empty, Cell.empty, Cell.empty],
                [Cell.empty, Cell.empty, Cell.empty]]
      current := .O
      winner := some (GameResult.player .X) }

/-! Claim C1. -/

/-- Claim C1 counterexample: on a terminal state (winner is X) the
plain placement at (1, 0) is accepted by applyMove, so terminal states
do not reject further moves. -/
theorem applyMove_on_terminal_succeeds :
    (applyMove terminalState { r := some 1, c := some 0 }).isOk = true := by
  decide

/-- Claim C1 (amended): applyMove never inspects the winner field; the
move outcome on a state with any winner value equals the outcome on
the same state, with the winner value carried through unchanged. -/
theorem applyMove_ignores_winner (s : GameState) (w : Option GameResult) (m : Move) :
    applyMove (setWinner s w) m = (applyMove s m).map fun t => setWinner t w := by
  have hdm : resolveDoubleMove (setWinner s w) m = resolveDoubleMove s m := rfl
  have hls : resolveLaneShift (setWinner s w) m = resolveLaneShift s m := rfl
  have hb : (setWinner s w).board = s.board := rfl
  have hcfg : (setWinner s w).config = s.config := rfl
  have hcur : (setWinner s w).current = s.current := rfl
  have hmov : (setWinner s w).moves = s.moves := rfl
  have hpow : (setWinner s w).powers = s.powers := rfl
  have hwin : (setWinner s w).winner = w := rfl
  simp only [applyMove, hdm, hls, hb, hcfg, hcur, hmov, hpow, hwin]
  cases m.power with
  | none =>
    cases m.r with
    | none => cases m.c <;> rfl
    | some r =>
      cases m.c with
      | none => rfl
      | some c =>
        dsimp only
        repeat' (split <;> try rfl)
  | some p =>
    cases p with
    | doubleMove =>
      cases resolveDoubleMove s m <;> rfl
    | laneShift =>
      cases resolveLaneShift s m <;> cases m.shift <;> rfl
    | bomb =>
      cases m.r with
      | none => cases m.c <;> rfl
      | some r =>
        cases m.c with
        | none => rfl
        | some c =>
          dsimp only
          repeat' (split <;> try rfl)

/-! Claim C10. -/

/-- Claim C10: whenever applyMove succeeds, the winner field of the
returned state equals the winner field of the input state; applyMove
never computes or sets a winner. -/
theorem applyMove_preserves_winner (s : GameState) (m : Move) (t : GameState)
    (h : applyMove s m = .ok t) : t.winner = s.winner := by
  unfold applyMove at h
  try dsimp only at h
  repeat' split at h
  all_goals try dsimp only at h
  all_goals first
    | exact Except.noConfusion h
    | (injection h with h2; subst h2; rfl)

/-- The state reached from the empty classic state by placing X at the
origin. -/
def afterFirstMove : GameState :=
  { emptyClassic with
      board := place emptyClassic.board 0 0 .X
      moves := [{ r := some 0, c := some 0, player := some .X }]
      current := .O
      lastMove := some { r := some 0, c := some 0, player := some .X } }

/-- Claim C10 witness: a concrete successful move preserving the
winner field. -/
theorem applyMove_preserves_winner_witness :
    afterFirstMove.winner = emptyClassic.winner :=
  applyMove_preserves_winner emptyClassic { r := some 0, c := some 0 } afterFirstMove rfl

/-! Claim C4. -/

/-- A 3 by 3 state with the bomb variant enabled and no power used. -/
def bombState : GameState :=
  { emptyClassic with config := { classicConfig with bomb := true } }

/-- The bomb move aimed at the center cell. -/
def bombMove : Move :=
  { r := some 1, c := some 1, power := some OneTimePowerId.bomb }

/-- Claim C4 evaluation at the failing input: with config.bomb set and
the bomb unused, applyMove on a bomb move succeeds but falls through
to the plain placement branch: the target cell receives the acting
player mark X instead of the bombed value F, and the power usage
record is unchanged. -/
theorem bomb_move_falls_through :
    (applyMove bombState bombMove).isOk = true ∧
      ((applyMove bombState bombMove).toOption.map fun t =>
        (getCell t.board 1 1, t.powers)) = some (Cell.mark .X, createInitialPowerUsage) := by
  decide

/-! Claim C2. -/

/-- Unpack membership in emptyCells: the move is a plain placement at
an in-range empty cell. -/
theorem mem_emptyCells {b : Board} {m : Move} (hm : m ∈ emptyCells b) :
    ∃ r c : Nat, r < b.length ∧ c < b.length ∧ getCell b r c = Cell.empty ∧
      m = { r := some (r : Int), c := some (c : Int) } := by
  unfold emptyCells at hm
  simp only [List.mem_flatMap, List.mem_range] at hm
  obtain ⟨r, hr, c, hc, hmem⟩ := hm
  by_cases hcell : getCell b r c = Cell.empty
  · rw [if_pos hcell] at hmem
    simp only [List.mem_singleton] at hmem
    exact ⟨r, c, hr, hc, hcell, hmem⟩
  · rw [if_neg hcell] at hmem
    simp at hmem

/-- The landing cell of the gravity loop is empty whenever the
starting cell is empty. -/
theorem gravityDrop_empty (b : Board) (n c : Nat) :
    ∀ (k rr : Nat), n - rr ≤ k → getCell b rr c = Cell.empty →
      getCell b (gravityDrop b n c rr) c = Cell.empty := by
  intro k
  induction k with
  | zero =>
    intro rr hk h
    rw [gravityDrop]
    split
    · rename_i hcond
      exact absurd hcond.1 (by omega)
    · exact h
  | succ k ih =>
    intro rr hk h
    rw [gravityDrop]
    split
    · rename_i hcond
      exact ih (rr + 1) (by omega) hcond.2
    · exact h

/-- Claim C2: every move returned by legalMoves is accepted by
applyMove (in particular under gravity, where the placement is
resolved downward to an empty landing cell). -/
theorem legalMoves_all_apply (s : GameState) (m : Move) (hm : m ∈ legalMoves s) :
    ∃ t, applyMove s m = .ok t := by
  obtain ⟨r, c, hr, hc, hcell, rfl⟩ := mem_emptyCells hm
  have hbnd : inBounds s.board.length (r : Int) (c : Int) = true := by
    simp only [inBounds, Bool.and_eq_true, decide_eq_true_eq]
    refine ⟨⟨⟨?_, ?_⟩, ?_⟩, ?_⟩ <;> omega
  simp only [applyMove, hbnd, Int.toNat_natCast, hcell]
  simp only [ne_eq, not_true_eq_false, Bool.true_eq_false, if_false, ite_false]
  split
  · rename_i hgrav
    have hg : getCell s.board (applyGravity s.board r c).1 (applyGravity s.board r c).2
        = Cell.empty := by
      unfold applyGravity
      exact gravityDrop_empty s.board s.board.length c (s.board.length - r) r le_rfl hcell
    simp only [hg, not_true_eq_false, if_false, ite_false]
    exact ⟨_, rfl⟩
  · simp only [hcell, not_true_eq_false, if_false, ite_false]
    exact ⟨_, rfl⟩

/-- Claim C2 witness: the origin placement is offered on the empty
classic board and applyMove accepts it. -/
theorem legalMoves_all_apply_witness :
    ({ r := some 0, c := some 0 : Move } ∈ legalMoves emptyClassic) ∧
      ∃ t, applyMove emptyClassic { r := some 0, c := some 0 } = .ok t :=
  ⟨by decide, legalMoves_all_apply emptyClassic _ (by decide)⟩

/-! Claim C3. -/

/-- A board of n rows, each of length n. -/
abbrev IsSquare (n : Nat) (b : Board) : Prop :=
  b.length = n ∧ ∀ row ∈ b, row.length = n

/-- The freshly created board is square. -/
theorem isSquare_createBoard (n : Nat) : IsSquare n (createBoard n) := by
  constructor
  · simp [createBoard]
  · intro row hrow
    unfold createBoard at hrow
    rw [List.eq_of_mem_replicate hrow]
    simp

/-- The freshly created board has n times n cells. -/
theorem totalCells_createBoard (n : Nat) : totalCells (createBoard n) = n * n := by
  simp [totalCells, createBoard, List.map_replicate, List.sum_replicate, smul_eq_mul,
    Nat.mul_comm]

/-- The freshly created board has no blocked cell. -/
theorem countBlocked_createBoard (n : Nat) : countBlocked (createBoard n) = 0 := by
  simp [countBlocked, createBoard, List.map_replicate, List.sum_replicate, List.count_replicate]

/-- Writing one cell preserves the cell count. -/
theorem totalCells_setCell (b : Board) (r c : Nat) (v : Cell) :
    totalCells (setCell b r c v) = totalCells b := by
  induction b generalizing r with
  | nil => cases r <;> rfl
  | cons row rest ih =>
    cases r with
    | zero => simp [totalCells, setCell, List.getD]
    | succ r =>
      have hstep : setCell (row :: rest) (r + 1) c v = row :: setCell rest r c v := rfl
      rw [hstep]
      simp only [totalCells, List.map_cons, List.sum_cons]
      have := ih r
      simp only [totalCells] at this
      omega

/-- Every row of a board with one cell written has the length of some
row of the original board. -/
theorem mem_setCell_length (b : Board) (r c : Nat) (v : Cell) :
    ∀ row2 ∈ setCell b r c v, ∃ row1 ∈ b, row2.length = row1.length := by
  induction b generalizing r with
  | nil => intro row2 h2; cases r <;> simp [setCell] at h2
  | cons row rest ih =>
    intro row2 h2
    cases r with
    | zero =>
      have hstep : setCell (row :: rest) 0 c v = (row.set c v) :: rest := rfl
      rw [hstep] at h2
      rcases List.mem_cons.mp h2 with h2 | h2
      · exact ⟨row, by simp, by simp [h2]⟩
      · exact ⟨row2, by simp [h2], rfl⟩
    | succ r =>
      have hstep : setCell (row :: rest) (r + 1) c v = row :: setCell rest r c v := rfl
      rw [hstep] at h2
      rcases List.mem_cons.mp h2 with h2 | h2
      · exact ⟨row, by simp, by simp [h2]⟩
      · obtain ⟨row1, hm, hl⟩ := ih r row2 h2
        exact ⟨row1, by simp [hm], hl⟩

/-- Writing one cell preserves squareness. -/
theorem isSquare_setCell (n : Nat) (b : Board) (r c : Nat) (v : Cell)
    (h : IsSquare n b) : IsSquare n (setCell b r c v) := by
  refine ⟨?_, ?_⟩
  · rw [setCell, List.length_set]
    exact h.1
  · intro row2 h2
    obtain ⟨row1, hm, hl⟩ := mem_setCell_length b r c v row2 h2
    rw [hl]
    exact h.2 row1 hm

/-- Blocking an empty in-range cell of a row raises its blocked count
by one. -/
theorem count_set_B (row : List Cell) :
    ∀ c, c < row.length → row.getD c Cell.B = Cell.empty →
      (row.set c Cell.B).count Cell.B = row.count Cell.B + 1 := by
  induction row with
  | nil =>
    intro c hc hcell
    simp at hc
  | cons a as ih =>
    intro c hc hcell
    cases c with
    | zero =>
      have ha : a = Cell.empty := by simpa [List.getD] using hcell
      subst ha
      simp [List.count_cons]
    | succ c =>
      have h2 := ih c (by simpa using hc) (by simpa [List.getD] using hcell)
      simp only [List.set, List.count_cons, h2]
      omega

/-- Blocking an empty in-range cell of the board raises the blocked
count by one. -/
theorem countBlocked_setCell (b : Board) :
    ∀ r c, r < b.length → c < (List.getD b r []).length → getCell b r c = Cell.empty →
      countBlocked (setCell b r c Cell.B) = countBlocked b + 1 := by
  induction b with
  | nil =>
    intro r c hr hc hcell
    simp at hr
  | cons row rest ih =>
    intro r c hr hc hcell
    cases r with
    | zero =>
      have hrow : (row.set c Cell.B).count Cell.B = row.count Cell.B + 1 :=
        count_set_B row c hc hcell
      have hstep : setCell (row :: rest) 0 c Cell.B = (row.set c Cell.B) :: rest := rfl
      rw [hstep]
      simp only [countBlocked, List.map_cons, List.sum_cons]
      omega
    | succ r =>
      have hstep : setCell (row :: rest) (r + 1) c Cell.B = row :: setCell rest r c Cell.B := rfl
      have h2 := ih r c (by simpa using hr) hc hcell
      rw [hstep]
      simp only [countBlocked, List.map_cons, List.sum_cons]
      simp only [countBlocked] at h2
      omega

/-- Every row of a square board read through getD has length n. -/
theorem getD_row_length {n : Nat} {b : Board} (h : IsSquare n b) {r : Nat} (hr : r < n) :
    (List.getD b r []).length = n := by
  have hrb : r < b.length := by rw [h.1]; exact hr
  rw [List.getD_eq_getElem b [] hrb]
  exact h.2 _ (List.getElem_mem hrb)

/-- Invariant of the block placement loop: a completed run preserves
squareness and the cell count, and adds exactly the outstanding number
of blocks. -/
theorem placeBlocksLoop_spec (n blocks : Nat) (hn : 0 < n) :
    ∀ (coords : List (Nat × Nat)) (placed : Nat) (b b2 : Board), IsSquare n b →
      placed ≤ blocks → placeBlocksLoop n blocks placed coords b = some b2 →
      IsSquare n b2 ∧ totalCells b2 = totalCells b ∧
        countBlocked b2 = countBlocked b + (blocks - placed) := by
  intro coords
  induction coords with
  | nil =>
    intro placed b b2 hsq hpb h
    rw [placeBlocksLoop] at h
    split at h
    · exact absurd h (by simp)
    · rename_i hge
      injection h with h2
      subst h2
      refine ⟨hsq, rfl, ?_⟩
      omega
  | cons pc rest ih =>
    obtain ⟨r0, c0⟩ := pc
    intro placed b b2 hsq hpb h
    rw [placeBlocksLoop] at h
    split at h
    · rename_i hlt
      have hr : r0 % n < n := Nat.mod_lt _ hn
      have hc : c0 % n < n := Nat.mod_lt _ hn
      dsimp only at h
      split at h
      · rename_i hcellE
        have hsq2 := isSquare_setCell n b (r0 % n) (c0 % n) Cell.B hsq
        obtain ⟨g1, g2, g3⟩ := ih (placed + 1) _ b2 hsq2 (by omega) h
        have hcb : countBlocked (setCell b (r0 % n) (c0 % n) Cell.B) = countBlocked b + 1 :=
          countBlocked_setCell b (r0 % n) (c0 % n) (by rw [hsq.1]; exact hr)
            (by rw [getD_row_length hsq hr]; exact hc) hcellE
        refine ⟨g1, by rw [g2, totalCells_setCell], ?_⟩
        rw [g3, hcb]
        omega
      · exact ih placed b b2 hsq hpb h
    · rename_i hge
      injection h with h2
      subst h2
      refine ⟨hsq, rfl, ?_⟩
      omega

/-- Claim C3: for every valid config and every completed random
outcome, createGame yields a board of boardSize squared cells whose
blocked count is 0 when randomBlocks is 0 and otherwise lies in
[1, min randomBlocks (boardSize squared over four)], with current X,
empty history, all power flags false and no winner. -/
theorem initState_spec (config : VariantConfig) (pick : Nat) (coords : List (Nat × Nat))
    (s : GameState) (hsize : 3 ≤ config.boardSize) (_hwin : config.winLength ≤ config.boardSize)
    (hinit : initState config pick coords = some s) :
    totalCells s.board = config.boardSize ^ 2 ∧
    (config.randomBlocks = 0 → countBlocked s.board = 0) ∧
    (0 < config.randomBlocks →
      1 ≤ countBlocked s.board ∧
      countBlocked s.board ≤ min config.randomBlocks (config.boardSize ^ 2 / 4)) ∧
    s.current = .X ∧ s.moves = [] ∧
    s.powers = { doubleMove := { X := false, O := false }
                 laneShift := { X := false, O := false } } ∧
    s.winner = none := by
  have hn : 0 < config.boardSize := by omega
  unfold initState at hinit
  dsimp only at hinit
  set n := config.boardSize with hn2
  set maxBlocks := min config.randomBlocks (n ^ 2 / 4) with hmb
  set blocks := if 1 < maxBlocks then pick % maxBlocks + 1 else maxBlocks with hbl
  cases hpl : placeBlocksLoop n blocks 0 coords (createBoard n) with
  | none => rw [hpl] at hinit; exact absurd hinit (by simp)
  | some b =>
    rw [hpl] at hinit
    injection hinit with h2
    subst h2
    obtain ⟨g1, g2, g3⟩ := placeBlocksLoop_spec n blocks hn coords 0 (createBoard n) b
      (isSquare_createBoard n) (Nat.zero_le _) hpl
    have hcount : countBlocked b = blocks := by
      rw [g3, countBlocked_createBoard]
      omega
    have htot : totalCells b = n ^ 2 := by
      rw [g2, totalCells_createBoard, pow_two]
    refine ⟨htot, ?_, ?_, rfl, rfl, rfl, rfl⟩
    · intro hzero
      have hmb0 : maxBlocks = 0 := by
        rw [hmb, hzero]
        simp
      rw [hcount, hbl, hmb0]
      simp
    · intro hpos
      have h9 : 9 ≤ n ^ 2 := by
        rw [pow_two]
        calc 9 = 3 * 3 := rfl
        _ ≤ n * n := Nat.mul_le_mul hsize hsize
      have hq : 2 ≤ n ^ 2 / 4 := by
        calc 2 = 9 / 4 := rfl
        _ ≤ n ^ 2 / 4 := Nat.div_le_div_right h9
      have hmb1 : 1 ≤ maxBlocks := by
        rw [hmb]
        exact le_min hpos (by omega)
      have hblocks : 1 ≤ blocks ∧ blocks ≤ maxBlocks := by
        rw [hbl]
        split
        · rename_i hgt
          constructor
          · omega
          · have := Nat.mod_lt pick (show 0 < maxBlocks by omega)
            omega
        · exact ⟨hmb1, le_rfl⟩
      rw [hcount]
      exact ⟨hblocks.1, hmb ▸ hblocks.2⟩

/-- The config of the claim C3 witness. -/
def blockedConfig : VariantConfig :=
  { boardSize := 3, winLength := 3, randomBlocks := 1 }

/-- The state reached by initState on blockedConfig with pick 0 and a
single drawn coordinate (0, 0). -/
def blockedInitState : GameState :=
  { board := [[Cell.B, Cell.empty, Cell.empty],
              [Cell.empty, Cell.empty, Cell.empty],
              [Cell.empty, Cell.empty, Cell.empty]]
    current := .X
    config := blockedConfig
    moves := []
    winner := none
    powers := createInitialPowerUsage }

/-! Claims C5 and C6: symmetries of checkWinner. -/

/-- findSome? distributes over a post-composed Option.map. -/
theorem findSome?_option_map {α β γ : Type} (l : List α) (f : α → Option β) (g : β → γ) :
    (l.findSome? fun a => (f a).map g) = (l.findSome? f).map g := by
  induction l with
  | nil => rfl
  | cons a as ih =>
    rw [List.findSome?_cons, List.findSome?_cons]
    cases f a <;> simp [ih]

/-- The window counters agree on two states with the same board, wrap
flag and window list. -/
theorem runCountsGo_congr (s1 s2 : GameState) (hb : s1.board = s2.board)
    (hwrap : s1.config.wrap = s2.config.wrap) (sr sc dr dc : Int) :
    ∀ (ks : List Nat) (acc : Nat × Nat),
      runCountsGo s1 sr sc dr dc ks acc = runCountsGo s2 sr sc dr dc ks acc := by
  have hcell : ∀ r c : Int, winnerCell s1 r c = winnerCell s2 r c := by
    intro r c
    unfold winnerCell
    rw [hb, hwrap]
  intro ks
  induction ks with
  | nil => intro acc; rfl
  | cons k ks ih =>
    intro acc
    obtain ⟨x, o⟩ := acc
    simp only [runCountsGo, hcell]
    cases winnerCell s2 (sr + dr * k) (sc + dc * k) with
    | mark p => cases p <;> exact ih _
    | empty => rfl
    | B => rfl
    | F => rfl

/-- One window of a misere state reports the swapped player of the
same window of the plain state. -/
theorem windowWinner_misere (s1 s2 : GameState) (hb : s1.board = s2.board)
    (hwrap : s1.config.wrap = s2.config.wrap)
    (hwl : s1.config.winLength = s2.config.winLength)
    (hm1 : s1.config.misere = true) (hm2 : s2.config.misere = false)
    (sr sc : Nat) (dr dc : Int) :
    windowWinner s1 sr sc dr dc = (windowWinner s2 sr sc dr dc).map swapPlayer := by
  unfold windowWinner runCounts
  rw [hwl, runCountsGo_congr s1 s2 hb hwrap, hm1, hm2]
  obtain ⟨x, o⟩ := runCountsGo s2 sr sc dr dc (List.range s2.config.winLength) (0, 0)
  by_cases hx : x = s2.config.winLength
  · simp [hx, swapPlayer]
  · by_cases ho : o = s2.config.winLength
    · simp [hx, ho, swapPlayer]
    · simp [hx, ho]

/-- checkWinner on a misere state is the swapped checkWinner of the
identical state with misere off (boards, wrap and window length
equal). -/
theorem checkWinner_misere_general (s1 s2 : GameState) (hb : s1.board = s2.board)
    (hwrap : s1.config.wrap = s2.config.wrap)
    (hwl : s1.config.winLength = s2.config.winLength)
    (hm1 : s1.config.misere = true) (hm2 : s2.config.misere = false) :
    checkWinner s1 = (checkWinner s2).map resultSwap := by
  unfold checkWinner
  rw [hb]
  have houter :
      ((lineStarts s2.board.length).findSome? fun rc =>
        dirs.findSome? fun d => windowWinner s1 rc.1 rc.2 d.1 d.2) =
      ((lineStarts s2.board.length).findSome? fun rc =>
        (dirs.findSome? fun d => windowWinner s2 rc.1 rc.2 d.1 d.2).map swapPlayer) := by
    congr 1
    funext rc
    rw [← findSome?_option_map]
    congr 1
    funext d
    exact windowWinner_misere s1 s2 hb hwrap hwl hm1 hm2 rc.1 rc.2 d.1 d.2
  rw [houter, findSome?_option_map]
  cases (lineStarts s2.board.length).findSome? fun rc =>
      dirs.findSome? fun d => windowWinner s2 rc.1 rc.2 d.1 d.2 with
  | some p => simp [resultSwap]
  | none =>
    have hmap : Option.map swapPlayer (none : Option Player) = none := rfl
    rw [hmap]
    dsimp only
    split <;> simp [resultSwap]

/-- Claim C5: with misere switched on, checkWinner reports the
opposite player of the identical state with misere off; draw and null
are unchanged. -/
theorem checkWinner_misere_flips (s : GameState) :
    checkWinner (withMisere s true) = (checkWinner (withMisere s false)).map resultSwap :=
  checkWinner_misere_general (withMisere s true) (withMisere s false) rfl rfl rfl rfl rfl

/-- Rows of the relabelled board through getD. -/
theorem getD_swapBoard (b : Board) (r : Nat) :
    (swapBoard b).getD r [] = (b.getD r []).map swapCell := by
  induction b generalizing r with
  | nil => cases r <;> rfl
  | cons row rest ih =>
    cases r with
    | zero => rfl
    | succ r => exact ih r

/-- Cells of a relabelled row through getD. -/
theorem getD_swapCell (row : List Cell) (c : Nat) :
    (row.map swapCell).getD c Cell.B = swapCell (row.getD c Cell.B) := by
  induction row generalizing c with
  | nil => cases c <;> rfl
  | cons a as ih =>
    cases c with
    | zero => rfl
    | succ c => exact ih c

/-- Reading the relabelled board relabels the read cell. -/
theorem getCell_swapBoard (b : Board) (r c : Nat) :
    getCell (swapBoard b) r c = swapCell (getCell b r c) := by
  unfold getCell
  rw [getD_swapBoard, getD_swapCell]

/-- The relabelled board has the same number of rows. -/
theorem length_swapBoard (b : Board) : (swapBoard b).length = b.length :=
  List.length_map b _

/-- The winner-scan cell read commutes with relabelling. -/
theorem winnerCell_swap (s1 s2 : GameState) (hb : s1.board = swapBoard s2.board)
    (hcfg : s1.config = s2.config) (r c : Int) :
    winnerCell s1 r c = swapCell (winnerCell s2 r c) := by
  unfold winnerCell
  rw [hb, length_swapBoard, hcfg]
  split
  · rw [getCell_swapBoard]
  · dsimp only
    split
    · rw [getCell_swapBoard]
    · rfl

/-- The window counters of the relabelled board are the swapped
counters of the original. -/
theorem runCountsGo_swap (s1 s2 : GameState) (hb : s1.board = swapBoard s2.board)
    (hcfg : s1.config = s2.config) (sr sc dr dc : Int) :
    ∀ (ks : List Nat) (x o : Nat),
      runCountsGo s1 sr sc dr dc ks (x, o) =
        (runCountsGo s2 sr sc dr dc ks (o, x)).swap := by
  intro ks
  induction ks with
  | nil => intro x o; rfl
  | cons k ks ih =>
    intro x o
    simp only [runCountsGo, winnerCell_swap s1 s2 hb hcfg]
    cases winnerCell s2 (sr + dr * k) (sc + dc * k) with
    | mark p =>
      cases p
      · simpa [swapCell, swapPlayer] using ih x (o + 1)
      · simpa [swapCell, swapPlayer] using ih (x + 1) o
    | empty => rfl
    | B => rfl
    | F => rfl

/-- The two window counters never add up to more than the window
length. -/
theorem runCountsGo_sum (s : GameState) (sr sc dr dc : Int) :
    ∀ (ks : List Nat) (x o : Nat),
      (runCountsGo s sr sc dr dc ks (x, o)).1 + (runCountsGo s sr sc dr dc ks (x, o)).2 ≤
        x + o + ks.length := by
  intro ks
  induction ks with
  | nil => intro x o; simp [runCountsGo]
  | cons k ks ih =>
    intro x o
    simp only [runCountsGo]
    cases winnerCell s (sr + dr * k) (sc + dc * k) with
    | mark p =>
      cases p
      · have := ih (x + 1) o
        simpa [List.length_cons] using this.trans (by omega)
      · have := ih x (o + 1)
        simpa [List.length_cons] using this.trans (by omega)
    | empty => simp
    | B => simp
    | F => simp

/-- One window of the relabelled board reports the swapped player
(misere off, positive window length). -/
theorem windowWinner_swap (s1 s2 : GameState) (hb : s1.board = swapBoard s2.board)
    (hcfg : s1.config = s2.config) (hmis : s2.config.misere = false)
    (hwl : 0 < s2.config.winLength) (sr sc : Nat) (dr dc : Int) :
    windowWinner s1 sr sc dr dc = (windowWinner s2 sr sc dr dc).map swapPlayer := by
  unfold windowWinner runCounts
  rw [hcfg, runCountsGo_swap s1 s2 hb hcfg, hmis]
  have hsum := runCountsGo_sum s2 sr sc dr dc (List.range s2.config.winLength) 0 0
  rcases hxo : runCountsGo s2 (sr : Int) (sc : Int) dr dc
      (List.range s2.config.winLength) (0, 0) with ⟨x, o⟩
  rw [hxo] at hsum
  simp only [List.length_range] at hsum
  simp only [Prod.swap]
  by_cases hx : x = s2.config.winLength
  · have ho : o ≠ s2.config.winLength := by omega
    simp [hx, ho, swapPlayer]
  · by_cases ho : o = s2.config.winLength
    · simp [hx, ho, swapPlayer]
    · simp [hx, ho]

/-- Relabelling the board preserves the empty-cell enumeration. -/
theorem emptyCells_swapBoard (b : Board) : emptyCells (swapBoard b) = emptyCells b := by
  unfold emptyCells
  rw [length_swapBoard]
  congr 1
  funext r
  congr 1
  funext c
  rw [getCell_swapBoard]
  cases getCell b r c <;> simp [swapCell]

/-- checkWinner of the relabelled state is the relabelled result of
the original (misere off, positive window length). -/
theorem checkWinner_swap_general (s1 s2 : GameState) (hb : s1.board = swapBoard s2.board)
    (hcfg : s1.config = s2.config) (hmis : s2.config.misere = false)
    (hwl : 0 < s2.config.winLength) :
    checkWinner s1 = (checkWinner s2).map resultSwap := by
  unfold checkWinner
  rw [hb, length_swapBoard]
  have houter :
      ((lineStarts s2.board.length).findSome? fun rc =>
        dirs.findSome? fun d => windowWinner s1 rc.1 rc.2 d.1 d.2) =
      ((lineStarts s2.board.length).findSome? fun rc =>
        (dirs.findSome? fun d => windowWinner s2 rc.1 rc.2 d.1 d.2).map swapPlayer) := by
    congr 1
    funext rc
    rw [← findSome?_option_map]
    congr 1
    funext d
    exact windowWinner_swap s1 s2 hb hcfg hmis hwl rc.1 rc.2 d.1 d.2
  rw [houter, findSome?_option_map]
  cases (lineStarts s2.board.length).findSome? fun rc =>
      dirs.findSome? fun d => windowWinner s2 rc.1 rc.2 d.1 d.2 with
  | some p => simp [resultSwap]
  | none =>
    have hmap : Option.map swapPlayer (none : Option Player) = none := rfl
    rw [hmap]
    dsimp only
    rw [emptyCells_swapBoard]
    split <;> simp [resultSwap]

/-- Claim C6: with misere off, relabelling every X and O on the board
relabels the reported winner, while draw and null are unchanged. -/
theorem checkWinner_relabel (s : GameState) (hmis : s.config.misere = false)
    (hwl : 0 < s.config.winLength) :
    checkWinner { s with board := swapBoard s.board } = (checkWinner s).map resultSwap :=
  checkWinner_swap_general { s with board := swapBoard s.board } s rfl rfl hmis hwl

/-- A state in which X already won the top row. -/
def xRowState : GameState :=
  { emptyClassic with
      board := [[Cell.mark .X, Cell.mark .X, Cell.mark .X],
                [Cell.empty, Cell.empty, Cell.empty],
                [Cell.empty, Cell.empty, Cell.empty]]
      current := .O }

/-- Claim C6 witness at a concrete winning state. -/
theorem checkWinner_relabel_witness :
    checkWinner { xRowState with board := swapBoard xRowState.board } =
      (checkWinner xRowState).map resultSwap :=
  checkWinner_relabel xRowState rfl (by decide)

/-! Claim C7: double-move adjacency. -/

/-- Every placement accepted by the ordering loop is either an earlier
final or non-adjacent to the marks known before the loop started. -/
theorem runDoubleOrder_spec (cfg : VariantConfig) (pl : Player) :
    ∀ (order : List MovePlacement) (b0 : Board) (finals0 marks0 : List MovePlacement)
      (b : Board) (fs : List MovePlacement),
      runDoubleOrder cfg pl order b0 finals0 marks0 = some (b, fs) →
      ∀ f ∈ fs, f ∈ finals0 ∨ adjacentToAny f marks0 = false := by
  intro order
  induction order with
  | nil =>
    intro b0 finals0 marks0 b fs h f hf
    rw [runDoubleOrder] at h
    injection h with h2
    injection h2 with h3 h4
    subst h4
    exact Or.inl hf
  | cons t ts ih =>
    intro b0 finals0 marks0 b fs h f hf
    rw [runDoubleOrder] at h
    cases hs : simulatePlacement b0 t cfg pl with
    | none => rw [hs] at h; exact absurd h (by simp)
    | some pr =>
      obtain ⟨b1, fin⟩ := pr
      rw [hs] at h
      dsimp only at h
      cases hb : adjacentToAny fin marks0 with
      | true => rw [hb] at h; exact absurd h (by simp)
      | false =>
        rw [hb] at h
        simp only [if_false, Bool.false_eq_true] at h
        have hrec := ih b1 (finals0 ++ [fin]) (marks0 ++ [fin]) b fs h f hf
        rcases hrec with hmem | hadj
        · rcases List.mem_append.mp hmem with hmem | hmem
          · exact Or.inl hmem
          · have hfin : f = fin := by simpa using hmem
            subst hfin
            exact Or.inr hb
        · right
          unfold adjacentToAny at hadj ⊢
          rw [List.any_append] at hadj
          exact (Bool.or_eq_false_iff.mp hadj).1

/-- A successful resolution attempt yields two placements that are
pairwise non-adjacent and non-adjacent to the starting marks. -/
theorem tryDoubleOrders_adjacency (cfg : VariantConfig) (pl : Player) (b0 : Board)
    (marks : List MovePlacement) :
    ∀ (attempts : List (List MovePlacement)) (board : Board) (p1 p2 : MovePlacement),
      tryDoubleOrders cfg pl b0 marks attempts = some (board, p1, p2) →
      adjacentToAny p1 marks = false ∧ adjacentToAny p2 marks = false ∧
        areAdjacent p1 p2 = false := by
  intro attempts
  induction attempts with
  | nil => intro board p1 p2 h; exact absurd h (by simp [tryDoubleOrders])
  | cons order rest ih =>
    intro board p1 p2 h
    rw [tryDoubleOrders] at h
    cases hro : runDoubleOrder cfg pl order b0 [] marks with
    | none =>
      rw [hro] at h
      exact ih board p1 p2 h
    | some pr =>
      obtain ⟨b1, fs⟩ := pr
      rw [hro] at h
      match fs, h with
      | [], h => exact ih board p1 p2 h
      | [f1], h => exact ih board p1 p2 h
      | f1 :: f2 :: f3 :: fs4, h => exact ih board p1 p2 h
      | [f1, f2], h =>
        have hspec := runDoubleOrder_spec cfg pl order b0 [] marks b1 [f1, f2] hro
        dsimp only at h
        cases hadj : areAdjacent f1 f2 with
        | true =>
          rw [hadj] at h
          simp only [if_true] at h
          exact ih board p1 p2 h
        | false =>
          rw [hadj] at h
          simp only [if_false, Bool.false_eq_true] at h
          injection h with h2
          injection h2 with h3 h4
          injection h4 with h5 h6
          subst h5
          subst h6
          have h1 := hspec f1 (by simp)
          have h2b := hspec f2 (by simp)
          simp only [List.not_mem_nil, false_or] at h1 h2b
          exact ⟨h1, h2b, hadj⟩

/-- Claim C7: a double-move resolution never includes a placement
adjacent (Chebyshev at most 1) to an existing mark of the acting
player, nor two mutually adjacent placements — so a double-move whose
every ordering violates the adjacency constraint is rejected, and once
resolution fails applyMove throws the illegal-move error. -/
theorem doubleMove_adjacent_rejected (s : GameState) (m : Move)
    (hm : m.power = some OneTimePowerId.doubleMove) :
    (∀ b p1 p2, resolveDoubleMove s m = some (b, p1, p2) →
      adjacentToAny p1 (collectPlayerMarks s.board s.current) = false ∧
      adjacentToAny p2 (collectPlayerMarks s.board s.current) = false ∧
      areAdjacent p1 p2 = false) ∧
    (resolveDoubleMove s m = none → applyMove s m = .error "Illegal move") := by
  constructor
  · intro b p1 p2 h
    unfold resolveDoubleMove at h
    repeat' split at h
    all_goals first
      | exact Option.noConfusion h
      | (dsimp only at h
         exact tryDoubleOrders_adjacency _ _ _ _ _ _ _ _ h)
  · intro h
    simp only [applyMove, hm, h]

/-- A 3 by 3 state with the double-move variant enabled. -/
def dmState : GameState :=
  { emptyClassic with config := { classicConfig with doubleMove := true } }

/-- A double move on two opposite corners. -/
def dmMove : Move :=
  { r := some 0, c := some 0, power := some OneTimePowerId.doubleMove
    extra := some { r := 2, c := 2 } }

/-- Claim C7 witness at a concrete accepted double move. -/
theorem doubleMove_adjacent_rejected_witness :
    adjacentToAny { r := 0, c := 0 } (collectPlayerMarks dmState.board dmState.current) = false ∧
    adjacentToAny { r := 2, c := 2 } (collectPlayerMarks dmState.board dmState.current) = false ∧
    areAdjacent { r := 0, c := 0 } { r := 2, c := 2 } = false :=
  (doubleMove_adjacent_rejected dmState dmMove rfl).1
    [[Cell.mark .X, Cell.empty, Cell.empty],
     [Cell.empty, Cell.empty, Cell.empty],
     [Cell.empty, Cell.empty, Cell.mark .X]]
    { r := 0, c := 0 } { r := 2, c := 2 } (by decide)

/-! Claim C9: antisymmetry of the evaluator. -/

/-- Summing the pointwise negation negates the sum. -/
theorem sum_map_neg {α : Type} (l : List α) (f : α → Int) :
    (l.map fun a => - f a).sum = - (l.map f).sum := by
  induction l with
  | nil => simp
  | cons a as ih =>
    rw [List.map_cons, List.sum_cons, List.map_cons, List.sum_cons, ih, neg_add]

/-- The opponent map is an involution. -/
theorem opponent_opponent (fp : Player) : opponent (opponent fp) = fp := by
  cases fp <;> rfl

/-- Swapping the evaluated player swaps the mine and theirs counters
of every window. -/
theorem windowCountGo_opp (s : GameState) (fp : Player) (sr sc dr dc : Int) :
    ∀ (ks : List Nat) (m t e : Nat),
      windowCountGo s (opponent fp) sr sc dr dc ks (m, t, e) =
        { mine := (windowCountGo s fp sr sc dr dc ks (t, m, e)).theirs
          theirs := (windowCountGo s fp sr sc dr dc ks (t, m, e)).mine
          empties := (windowCountGo s fp sr sc dr dc ks (t, m, e)).empties
          blocked := (windowCountGo s fp sr sc dr dc ks (t, m, e)).blocked } := by
  have hne : Cell.mark (opponent fp) ≠ Cell.mark fp := by cases fp <;> decide
  intro ks
  induction ks with
  | nil => intro m t e; rfl
  | cons k ks ih =>
    intro m t e
    simp only [windowCountGo, opponent_opponent]
    by_cases h1 : evalCell s (sr + dr * k) (sc + dc * k) = Cell.mark (opponent fp)
    · have h1b : evalCell s (sr + dr * k) (sc + dc * k) ≠ Cell.mark fp := by
        rw [h1]; exact hne
      rw [if_pos h1, if_neg h1b, if_pos h1]
      exact ih (m + 1) t e
    · by_cases h2 : evalCell s (sr + dr * k) (sc + dc * k) = Cell.mark fp
      · rw [if_neg h1, if_pos h2, if_pos h2]
        exact ih m (t + 1) e
      · rw [if_neg h1, if_neg h2, if_neg h2, if_neg h1]
        by_cases h3 : evalCell s (sr + dr * k) (sc + dc * k) = Cell.empty
        · rw [if_pos h3, if_pos h3]
          exact ih m t (e + 1)
        · rw [if_neg h3, if_neg h3]

/-- When a window is not blocked, its three counters exhaust the
window length. -/
theorem windowCountGo_total (s : GameState) (fp : Player) (sr sc dr dc : Int) :
    ∀ (ks : List Nat) (m t e : Nat),
      (windowCountGo s fp sr sc dr dc ks (m, t, e)).blocked = false →
      (windowCountGo s fp sr sc dr dc ks (m, t, e)).mine +
        (windowCountGo s fp sr sc dr dc ks (m, t, e)).theirs +
        (windowCountGo s fp sr sc dr dc ks (m, t, e)).empties = m + t + e + ks.length := by
  intro ks
  induction ks with
  | nil => intro m t e _; simp [windowCountGo]
  | cons k ks ih =>
    intro m t e hbf
    simp only [windowCountGo] at hbf ⊢
    by_cases h1 : evalCell s (sr + dr * k) (sc + dc * k) = Cell.mark fp
    · rw [if_pos h1] at hbf ⊢
      have := ih (m + 1) t e hbf
      simp only [List.length_cons]
      omega
    · rw [if_neg h1] at hbf ⊢
      by_cases h2 : evalCell s (sr + dr * k) (sc + dc * k) = Cell.mark (opponent fp)
      · rw [if_pos h2] at hbf ⊢
        have := ih m (t + 1) e hbf
        simp only [List.length_cons]
        omega
      · rw [if_neg h2] at hbf ⊢
        by_cases h3 : evalCell s (sr + dr * k) (sc + dc * k) = Cell.empty
        · rw [if_pos h3] at hbf ⊢
          have := ih m t (e + 1) hbf
          simp only [List.length_cons]
          omega
        · rw [if_neg h3] at hbf
          simp at hbf

/-- Swapping the evaluated player negates every window value. -/
theorem windowValue_opp (s : GameState) (fp : Player) (hwl : 0 < s.config.winLength)
    (sr sc dr dc : Int) :
    windowValue s (opponent fp) sr sc dr dc = - windowValue s fp sr sc dr dc := by
  unfold windowValue windowCount
  rw [windowCountGo_opp]
  have htot := windowCountGo_total s fp sr sc dr dc (List.range s.config.winLength) 0 0 0
  rcases hxw : windowCountGo s fp sr sc dr dc (List.range s.config.winLength) (0, 0, 0) with
    ⟨wm, wt, we, wb⟩
  rw [hxw] at htot
  simp only [List.length_range] at htot
  dsimp only
  cases wb with
  | true => simp
  | false =>
    have htot2 := htot rfl
    by_cases hmix : 0 < wm ∧ 0 < wt
    · have hmix2 : 0 < wt ∧ 0 < wm := ⟨hmix.2, hmix.1⟩
      simp [hmix, hmix2]
    · have hmix2 : ¬(0 < wt ∧ 0 < wm) := fun h => hmix ⟨h.2, h.1⟩
      have hz : ¬ (0 = s.config.winLength) := by omega
      by_cases hm : wm = s.config.winLength
      · have hth0 : wt = 0 := by omega
        have hth : wt ≠ s.config.winLength := by omega
        simp [hmix, hmix2, hm, hth, hth0, hz]
        try ring
      · by_cases hth : wt = s.config.winLength
        · have hm0 : wm = 0 := by omega
          simp [hmix, hmix2, hm, hth, hm0, hz]
          try ring
        · by_cases hmp : 0 < wm
          · have hthp : ¬ 0 < wt := fun h => hmix ⟨hmp, h⟩
            simp [hmix, hmix2, hm, hth, hmp, hthp]
            try ring
          · by_cases hthp : 0 < wt
            · simp [hmix, hmix2, hm, hth, hmp, hthp]
              try ring
            · simp [hmix, hmix2, hm, hth, hmp, hthp]

/-- Swapping the evaluated player negates the center control
contribution of every cell. -/
theorem centerTermCell_opp (n : Nat) (fp : Player) (val : Cell) (r c : Nat) :
    centerTermCell n (opponent fp) val r c = - centerTermCell n fp val r c := by
  unfold centerTermCell
  rw [opponent_opponent]
  have hne1 : ¬ fp = opponent fp := by cases fp <;> decide
  have hne2 : ¬ opponent fp = fp := by cases fp <;> decide
  by_cases h1 : val = Cell.mark fp
  · have h1b : val ≠ Cell.mark (opponent fp) := by
      rw [h1]; cases fp <;> decide
    simp [h1, h1b, hne1, hne2]
  · by_cases h2 : val = Cell.mark (opponent fp)
    · simp [h1, h2, hne1, hne2]
    · simp [h1, h2]

/-- Swapping the evaluated player negates the center control term. -/
theorem centerTerm_opp (s : GameState) (fp : Player) :
    centerTerm s (opponent fp) = - centerTerm s fp := by
  unfold centerTerm
  rw [← sum_map_neg]
  have hfun : (fun r => ((List.range s.board.length).map fun c =>
      centerTermCell s.board.length (opponent fp) (getCell s.board r c) r c).sum) =
      (fun r => - ((List.range s.board.length).map fun c =>
      centerTermCell s.board.length fp (getCell s.board r c) r c).sum) := by
    funext r
    rw [← sum_map_neg]
    have hfun2 : (fun c => centerTermCell s.board.length (opponent fp) (getCell s.board r c) r c)
        = (fun c => - centerTermCell s.board.length fp (getCell s.board r c) r c) := by
      funext c
      rw [centerTermCell_opp]
    rw [hfun2]
  rw [hfun]

/-- Swapping the evaluated player negates the full evaluation. -/
theorem evaluate_opp (s : GameState) (fp : Player) (hwl : 0 < s.config.winLength) :
    evaluate s (opponent fp) = - evaluate s fp := by
  unfold evaluate
  rw [centerTerm_opp]
  have hws : ((lineStarts s.board.length).map fun rc =>
      (dirs.map fun d => windowValue s (opponent fp) rc.1 rc.2 d.1 d.2).sum).sum =
      - ((lineStarts s.board.length).map fun rc =>
      (dirs.map fun d => windowValue s fp rc.1 rc.2 d.1 d.2).sum).sum := by
    rw [← sum_map_neg]
    have hfun : (fun rc : Nat × Nat =>
        (dirs.map fun d => windowValue s (opponent fp) rc.1 rc.2 d.1 d.2).sum) =
        (fun rc : Nat × Nat =>
        - (dirs.map fun d => windowValue s fp rc.1 rc.2 d.1 d.2).sum) := by
      funext rc
      rw [← sum_map_neg]
      have hfun2 : (fun d : Int × Int => windowValue s (opponent fp) rc.1 rc.2 d.1 d.2) =
          (fun d : Int × Int => - windowValue s fp rc.1 rc.2 d.1 d.2) := by
        funext d
        rw [windowValue_opp s fp hwl]
      rw [hfun2]
    rw [hfun]
  rw [hws]
  ring

/-- Claim C9: the evaluator is antisymmetric in the player argument
for every state with a positive window length (the TS type allows only
3 or 4), including misere and wrap configurations. -/
theorem evaluate_antisymmetric (s : GameState) (hwl : 0 < s.config.winLength) :
    evaluate s .X = - evaluate s .O := by
  have h := evaluate_opp s .O hwl
  simpa [opponent] using h

/-- Claim C9 witness at a concrete state. -/
theorem evaluate_antisymmetric_witness :
    evaluate xRowState .X = - evaluate xRowState .O :=
  evaluate_antisymmetric xRowState (by decide)

/-! Claim C8: bestMove and legal moves. -/

/-- Move ordering never changes the number of candidate moves. -/
theorem orderMoves_length (s : GameState) (ms : List Move) (fp : Player) :
    (orderMoves s ms fp).length = ms.length := by
  unfold orderMoves
  split
  · rfl
  · rw [List.length_map, List.length_mergeSort, List.length_map]

/-- The iterative deepening loop never loses a present best move. -/
theorem bestMoveLoop_isSome (s : GameState) (fp : Player) (hd : Bool) (ms : List Move) :
    ∀ (ds : List Nat) (best : Option Move) (sc : JNum) (tt : TT) (ck : List Bool),
      best.isSome = true → (bestMoveLoop s fp hd ms ds best sc tt ck).1.isSome = true := by
  intro ds
  induction ds with
  | nil => intro best sc tt ck hb; exact hb
  | cons d ds ih =>
    intro best sc tt ck hb
    rw [bestMoveLoop]
    rcases hsr : searchRoot s fp d ms tt hd ck with ⟨result, tt2, ck2⟩
    dsimp only
    split
    · exact hb
    · apply ih
      split
      · rename_i hmv
        exact hmv
      · exact hb

/-- Claim C8: bestMove returns null exactly when there is no legal
move, for every option record and every outcome of the deadline
clock. -/
theorem bestMove_none_iff (s : GameState) (fp : Player) (opts : SearchOpts)
    (clock : List Bool) :
    bestMove s fp opts clock = none ↔ legalMoves s = [] := by
  have hlen := orderMoves_length s (legalMoves s) fp
  unfold bestMove
  dsimp only
  by_cases hz : (orderMoves s (legalMoves s) fp).length = 0
  · rw [if_pos hz]
    have hnil : legalMoves s = [] := by
      rw [← List.length_eq_zero, ← hlen]
      exact hz
    simp [hnil]
  · rw [if_neg hz]
    have hmoves : legalMoves s ≠ [] := by
      intro hnil
      apply hz
      rw [hlen, hnil]
      rfl
    have hhead : (orderMoves s (legalMoves s) fp).head?.isSome = true := by
      cases hms : orderMoves s (legalMoves s) fp with
      | nil => rw [hms] at hz; simp at hz
      | cons a as => simp
    have hloop := bestMoveLoop_isSome s fp opts.maxMillis.isSome
      (orderMoves s (legalMoves s) fp)
      (List.range' 1 (opts.depth.getD (if s.board.length = 3 then 10 else 5)))
      (orderMoves s (legalMoves s) fp).head? .ninf [] clock hhead
    rcases hbl : bestMoveLoop s fp opts.maxMillis.isSome
        (orderMoves s (legalMoves s) fp)
        (List.range' 1 (opts.depth.getD (if s.board.length = 3 then 10 else 5)))
        (orderMoves s (legalMoves s) fp).head? .ninf [] clock with ⟨best, timedOut⟩
    rw [hbl] at hloop
    dsimp only at hloop ⊢
    have hbne : best ≠ none := by
      intro hb
      rw [hb] at hloop
      simp at hloop
    have hbn : best.isNone = false := by
      cases best
      · exact absurd rfl hbne
      · rfl
    rw [hbn]
    simp only [Bool.false_and, Bool.false_eq_true, if_false, ite_false]
    exact iff_of_false hbne hmoves

/-- Claim C3 witness at a concrete config and random outcome. -/
theorem initState_spec_witness :
    totalCells blockedInitState.board = blockedConfig.boardSize ^ 2 ∧
    (blockedConfig.randomBlocks = 0 → countBlocked blockedInitState.board = 0) ∧
    (0 < blockedConfig.randomBlocks →
      1 ≤ countBlocked blockedInitState.board ∧
      countBlocked blockedInitState.board ≤
        min blockedConfig.randomBlocks (blockedConfig.boardSize ^ 2 / 4)) ∧
    blockedInitState.current = .X ∧ blockedInitState.moves = [] ∧
    blockedInitState.powers = { doubleMove := { X := false, O := false }
                                laneShift := { X := false, O := false } } ∧
    blockedInitState.winner = none :=
  initState_spec blockedConfig 0 [(0, 0)] blockedInitState (by decide) (by decide) (by decide)

end TTT
